import Mathlib

/-!
Verification of the bitcoinlib BitAps provider adapter / sync driver
(`bitcoinlib/services/bitaps.py`) and of the enumerated-column CHECK
constraints of the ledger store schema (`bitcoinlib/db.py`).

The provider's JSON payloads are embedded as Lean structures carrying exactly
the fields the code reads; optional JSON keys become `Option` fields, and a
direct dictionary access on a possibly-absent key is a failing (`Option`)
computation, matching the Python `KeyError` behaviour.  Remote responses are
abstracted to the data the code extracts from them: a paged address history is
a total page count (the `data.pages` field reported on every response) plus
the item list of every page.
-/

set_option maxHeartbeats 1000000

/-- One entry of a provider transaction's `vOut` map (`bitaps.py` reads the
keys `address` (optional), `spent`, `value`, `scriptPubKey`). -/
structure VOutItem where
  address : Option String
  spent : Bool
  value : Int
  scriptPubKey : String
deriving DecidableEq

/-- One item of a provider address-history page (`res['data']['list']`), with
exactly the keys `bitaps.py` reads.  Keys only accessed after an `'x' in tx`
test, or accessed on some code paths only, are `Option`; the rest are
required.  `vIn` and `vOut` are the JSON objects keyed by input/output index,
embedded as association lists in JSON insertion order. -/
structure TxItem where
  txId : String
  hash : String
  rawTx : String
  confirmations : Nat
  timestamp : Option Int
  blockTime : Option Int
  blockHeight : Option Int
  blockHash : Option String
  fee : Int
  size : Nat
  vIn : List (Nat × Int)
  vOut : List (Nat × VOutItem)
  outputsAmount : Int
  inputsAmount : Int
deriving DecidableEq

/-- A transaction input of the decoded transaction value (`index_n`, `value`
attributes read/written by `_parse_transaction`). -/
structure TxInValue where
  index_n : Nat
  value : Int
deriving DecidableEq

/-- A transaction output of the decoded transaction value (`output_n`, `spent`
attributes read/written by `_parse_transaction`). -/
structure TxOutValue where
  output_n : Nat
  spent : Bool
deriving DecidableEq

/-- Modelled from the spec: the transaction codec (`Transaction.import_raw`,
code of this repository that is not under `src/`) decodes raw transaction
bytes into a transaction value carrying inputs, outputs, hash and the coinbase
flag; record fields not derivable from the raw bytes start at their
constructor defaults (status `new`, no date), and raw bytes carry no block or
confirmation data. -/
structure DecodedTx where
  status : String
  hash : String
  date : Option Int
  coinbase : Bool
  inputs : List TxInValue
  outputs : List TxOutValue
deriving DecidableEq

/-- The canonical transaction record produced by `_parse_transaction`: the
decoded transaction value after the adapter has overwritten/attached the
provider-derived fields. -/
structure TxRecord where
  status : String
  hash : String
  date : Option Int
  confirmations : Nat
  block_height : Option Int
  block_hash : Option String
  fee : Int
  rawtx : String
  size : Nat
  network : String
  coinbase : Bool
  inputs : List TxInValue
  outputs : List TxOutValue
  input_total : Int
  output_total : Int
deriving DecidableEq

/-- The UTXO record dict built by `getutxos` (`bitaps.py` lines 70-84). -/
structure UtxoRecord where
  address : String
  tx_hash : String
  confirmations : Nat
  output_n : Nat
  input_n : Nat
  block_height : Int
  fee : Option Int
  size : Nat
  value : Int
  script : String
  date : Int
deriving DecidableEq

/-- `List.mapM` specialised to `Option`, written out so that proofs can unfold
it: apply `f` to every element, failing as soon as one application fails
(a Python exception aborting a loop). -/
def mapOpt (f : α → Option β) : List α → Option (List β)
  | [] => some []
  | x :: xs =>
    match f x with
    | none => none
    | some y => (mapOpt f xs).map (fun ys => y :: ys)

/-- Left fold in the `Option` monad: a Python `for` loop over `l` mutating an
accumulator, where an iteration may raise (return `none`), aborting the
whole loop. -/
def ofoldl (f : σ → α → Option σ) (init : σ) : List α → Option σ
  | [] => some init
  | x :: xs =>
    match f init x with
    | none => none
    | some s => ofoldl f s xs

/-- `_parse_transaction` (`bitaps.py` lines 107-136), parameterised by the
external codec `import_raw`.  Returns `none` when a required dictionary key is
absent (Python `KeyError`). -/
def parse_transaction (import_raw : String → String → DecodedTx) (network : String)
    (tx : TxItem) : Option TxRecord :=
  let t := import_raw tx.rawTx network
  let bfields : Option (Option Int × Option String) :=
    match tx.blockHeight with
    | some h =>
      match tx.blockHash with
      | some bh => some (some h, some bh)
      | none => none
    | none => some (none, none)
  let inputsNew : Option (List TxInValue) :=
    if t.coinbase then some t.inputs
    else mapOpt (fun i => (List.lookup i.index_n tx.vIn).map (fun a => { i with value := a })) t.inputs
  let outputsNew : Option (List TxOutValue) :=
    mapOpt (fun o => (List.lookup o.output_n tx.vOut).map
      (fun u => { o with spent := o.spent || u.spent })) t.outputs
  match bfields, inputsNew, outputsNew with
  | some (bh, bhash), some ins, some outs =>
    some { status := if tx.confirmations ≠ 0 then "confirmed" else "unconfirmed"
           hash := tx.txId
           date := match tx.timestamp with
                   | some ts => some ts
                   | none => match tx.blockTime with
                             | some bt => some bt
                             | none => t.date
           confirmations := tx.confirmations
           block_height := bh
           block_hash := bhash
           fee := tx.fee
           rawtx := tx.rawTx
           size := tx.size
           network := network
           coinbase := t.coinbase
           inputs := ins
           outputs := outs
           input_total := if t.coinbase then tx.outputsAmount - tx.fee else tx.inputsAmount
           output_total := tx.outputsAmount }
  | _, _, _ => none

/-- A paged provider history for one address: the total page count (the
`data.pages` field, reported identically on every response of a consistent
provider) and the item list (`data.list`) of each page number. -/
structure Provider where
  pageCount : Nat
  items : Nat → List TxItem

/-- The page numbers requested by the fetch loop `while True: fetch(page);
page += 1; if page > pages: break`, started at `page`, against a provider
reporting total page count `P`.  `gas` is the loop variant `P - page`; with
`gas = P - page` the `gas = 0` case coincides with the loop's own exit test,
so this is exactly the loop's request sequence. -/
def pagesFromAux (P : Nat) : Nat → Nat → List Nat
  | page, 0 => [page]
  | page, gas + 1 => if page + 1 > P then [page] else page :: pagesFromAux P (page + 1) gas

/-- Page numbers requested by the fetch loop started at `page` against total
page count `P`. -/
def pagesFrom (P page : Nat) : List Nat := pagesFromAux P page (P - page)

/-- Run the paged fetch loop: request the pages in `ps` in order, processing
each page's items with `step` (which may raise), and record the trace of
requested pages.  A raise stops the loop immediately: no further page is
requested. -/
def runPages (prov : Provider) (step : List β → TxItem → Option (List β)) :
    List β → List Nat → List Nat × Option (List β)
  | acc, [] => ([], some acc)
  | acc, p :: rest =>
    match ofoldl step acc (prov.items p) with
    | none => ([p], none)
    | some acc2 =>
      ((p :: (runPages prov step acc2 rest).1), (runPages prov step acc2 rest).2)

/-- Per-item step of `gettransactions` (`bitaps.py` lines 98-101): parse the
item, append the record, and reset the collection when the item's `txId`
equals `after_txid`. -/
def txStep (import_raw : String → String → DecodedTx) (network after_txid : String)
    (acc : List TxRecord) (tx : TxItem) : Option (List TxRecord) :=
  (parse_transaction import_raw network tx).map
    (fun t => if tx.txId == after_txid then [] else acc ++ [t])

/-- `gettransactions` (`bitaps.py` lines 92-105) with its request trace:
`page` starts at `0`, each page's items are processed with `txStep`, and the
loop stops when the incremented page number exceeds the reported page count. -/
def gettransactionsRun (import_raw : String → String → DecodedTx) (network : String)
    (prov : Provider) (after_txid : String) : List Nat × Option (List TxRecord) :=
  runPages prov (txStep import_raw network after_txid) [] (pagesFrom prov.pageCount 0)

/-- `gettransactions` result: the collected records truncated to `max_txs`
(`return txs[:max_txs]`). -/
def gettransactions (import_raw : String → String → DecodedTx) (network : String)
    (prov : Provider) (after_txid : String) (max_txs : Nat) : Option (List TxRecord) :=
  (gettransactionsRun import_raw network prov after_txid).2.map (fun txs => txs.take max_txs)

/-- Per-output step of the `getutxos` inner loop (`bitaps.py` lines 66-84):
skip the output when it has no `address` key, a different address, or is
spent; otherwise build the UTXO record (reading `tx['blockHeight']` and
`tx['timestamp']` directly, a `KeyError` when absent) and append it. -/
def utxoOutStep (address : String) (tx : TxItem) (acc : List UtxoRecord)
    (ou : Nat × VOutItem) : Option (List UtxoRecord) :=
  match ou.2.address with
  | none => some acc
  | some a =>
    if a == address then
      if ou.2.spent then some acc
      else
        match tx.blockHeight, tx.timestamp with
        | some bh, some ts =>
          some (acc ++ [{ address := a, tx_hash := tx.txId, confirmations := tx.confirmations,
                          output_n := ou.1, input_n := 0, block_height := bh, fee := none,
                          size := 0, value := ou.2.value, script := ou.2.scriptPubKey,
                          date := ts }])
        | _, _ => none
    else some acc

/-- Per-item step of `getutxos` (`bitaps.py` lines 65-86): process the item's
`vOut` entries in order, then reset the collection when the item's `hash`
equals `after_txid`. -/
def utxoTxStep (address after_txid : String) (acc : List UtxoRecord) (tx : TxItem) :
    Option (List UtxoRecord) :=
  (ofoldl (utxoOutStep address tx) acc tx.vOut).map
    (fun acc2 => if tx.hash == after_txid then [] else acc2)

/-- `getutxos` (`bitaps.py` lines 58-90) with its request trace: `page` starts
at `1`, each page's items are processed with `utxoTxStep`, and the loop stops
when the incremented page number exceeds the reported page count. -/
def getutxosRun (prov : Provider) (address after_txid : String) :
    List Nat × Option (List UtxoRecord) :=
  runPages prov (utxoTxStep address after_txid) [] (pagesFrom prov.pageCount 1)

/-- `getutxos` result: the collected records truncated to `max_txs`
(`return utxos[:max_txs]`). -/
def getutxos (prov : Provider) (address after_txid : String) (max_txs : Nat) :
    Option (List UtxoRecord) :=
  (getutxosRun prov address after_txid).2.map (fun utxos => utxos.take max_txs)

/-- The provider items the `gettransactions` loop encounters: the
concatenation, in fetch order, of the item lists of the pages it requests
(pages `0, 1, …` up to the reported page count). -/
def streamG (prov : Provider) : List TxItem :=
  (pagesFrom prov.pageCount 0).flatMap prov.items

/-- The provider items the `getutxos` loop encounters: the concatenation, in
fetch order, of the item lists of the pages it requests (pages `1, 2, …` up to
the reported page count). -/
def streamU (prov : Provider) : List TxItem :=
  (pagesFrom prov.pageCount 1).flatMap prov.items

/-- `getbalance` (`bitaps.py` lines 51-56) with its request trace: one
`address/state` request per address in list order, accumulating
`res['data']['balance']` into `balance` starting from `0`.  `bal` abstracts
the provider's reported balance per address. -/
def getbalanceRun (bal : String → Int) (addresslist : List String) : Int × List String :=
  addresslist.foldl (fun acc address => (acc.1 + bal address, acc.2 ++ [address])) (0, [])

/-- `getbalance` result: the accumulated balance. -/
def getbalance (bal : String → Int) (addresslist : List String) : Int :=
  (getbalanceRun bal addresslist).1

/-- The last-seen item suffix: fold `l` keeping an ordered accumulation,
appending each element and resetting to empty whenever `key` holds, i.e. the
elements strictly after the last element satisfying `key` (all of `l` when no
element does).  This is the pure skeleton of the cursor rule shared by the two
fetch loops. -/
def afterLast (key : α → Bool) (l : List α) : List α :=
  l.foldl (fun acc x => if key x then [] else acc ++ [x]) []

/-- The UTXO records a single provider item contributes in `getutxos`: its
`vOut` entries processed in order starting from an empty collection. -/
def utxoBlock (address : String) (tx : TxItem) : Option (List UtxoRecord) :=
  ofoldl (utxoOutStep address tx) [] tx.vOut

/-! ### Ledger store schema (`db.py`): enumerated-column CHECK constraints -/

/-- Allowed transaction `status` values (`db.py` line 280,
`constraint_status_allowed`). -/
def txStatusValues : List String := ["new", "incomplete", "unconfirmed", "confirmed"]

/-- Allowed transaction `witness_type` values (`db.py` line 282,
`transaction_constraint_allowed_types`). -/
def txWitnessTypeValues : List String := ["legacy", "segwit"]

/-- Allowed `key_type` values (`db.py` line 213,
`constraint_key_types_allowed`). -/
def keyTypeValues : List String := ["single", "bip32", "multisig"]

/-- Allowed key `encoding` values (`db.py` line 214,
`constraint_address_encodings_allowed`). -/
def keyEncodingValues : List String := ["base58", "bech32"]

/-- A `transactions` row restricted to its identity and CHECK-constrained
enumerated columns (`db.py` lines 246-283). -/
structure DbTransactionRow where
  wallet_id : Nat
  hash : String
  status : String
  witness_type : String
deriving DecidableEq

/-- A `keys` row restricted to its identity and CHECK-constrained enumerated
columns (`db.py` lines 171-219). -/
structure DbKeyRow where
  wallet_id : Nat
  address : String
  key_type : String
  encoding : String
deriving DecidableEq

/-- Conjunction of the CHECK constraints declared on `DbTransaction`
(`db.py` lines 278-283). -/
def dbTransactionChecks (r : DbTransactionRow) : Bool :=
  txStatusValues.contains r.status && txWitnessTypeValues.contains r.witness_type

/-- Conjunction of the CHECK constraints declared on `DbKey`
(`db.py` lines 212-219). -/
def dbKeyChecks (r : DbKeyRow) : Bool :=
  keyTypeValues.contains r.key_type && keyEncodingValues.contains r.encoding

/-- Modelled from the spec: the relational engine enforcing declared
constraints is an external collaborator ("any relational store satisfying
ACID per-transaction semantics"; "Schema-level CHECK constraints must reject
any write using a script/status/encoding value outside its enumerated set").
A write of a transaction row is accepted (row appended) exactly when every
CHECK constraint declared in `db.py` holds of it. -/
def insertDbTransaction (table : List DbTransactionRow) (r : DbTransactionRow) :
    Option (List DbTransactionRow) :=
  if dbTransactionChecks r then some (table ++ [r]) else none

/-- Modelled from the spec: CHECK-constraint enforcement for key rows; the
constraint sets are the ones declared on `DbKey` (`db.py` lines 212-219). -/
def insertDbKey (table : List DbKeyRow) (r : DbKeyRow) : Option (List DbKeyRow) :=
  if dbKeyChecks r then some (table ++ [r]) else none

/-- A sequence of transaction-row writes, aborting on the first rejection. -/
def insertManyDbTransaction :
    List DbTransactionRow → List DbTransactionRow → Option (List DbTransactionRow)
  | table, [] => some table
  | table, r :: rs =>
    match insertDbTransaction table r with
    | none => none
    | some t2 => insertManyDbTransaction t2 rs

/-- A sequence of key-row writes, aborting on the first rejection. -/
def insertManyDbKey : List DbKeyRow → List DbKeyRow → Option (List DbKeyRow)
  | table, [] => some table
  | table, r :: rs =>
    match insertDbKey table r with
    | none => none
    | some t2 => insertManyDbKey t2 rs

/-! ### Concrete data for the examples -/

/-- A minimal well-formed provider item with the given `txId` and `hash`:
unconfirmed, no block data, empty `vIn`/`vOut`. -/
def mkItem (txid h : String) : TxItem :=
  { txId := txid, hash := h, rawTx := "00", confirmations := 0, timestamp := some 0,
    blockTime := none, blockHeight := none, blockHash := none, fee := 0, size := 100,
    vIn := [], vOut := [], outputsAmount := 0, inputsAmount := 0 }

/-- A provider item carrying one output for `addr` at output index `n`:
confirmed, with block data present. -/
def mkUtxoItem (txid h addr : String) (n : Nat) : TxItem :=
  { txId := txid, hash := h, rawTx := "00", confirmations := 3, timestamp := some 5,
    blockTime := none, blockHeight := some 7, blockHash := some "bh", fee := 1, size := 100,
    vIn := [(0, 10)],
    vOut := [(n, { address := some addr, spent := false, value := 10, scriptPubKey := "sc" })],
    outputsAmount := 10, inputsAmount := 10 }

/-- A codec decoding any raw string to a fixed non-coinbase transaction value
with no inputs or outputs. -/
def codec0 : String → String → DecodedTx :=
  fun raw _ =>
    { status := "new", hash := raw, date := none, coinbase := false, inputs := [], outputs := [] }

/-- The spec's cursor example: transactions `[A,B],[C,D]` over two pages.  For
`gettransactions`, which requests pages `0` and `1`, the pages are numbered
`0` and `1`. -/
def provABCD : Provider :=
  { pageCount := 1,
    items := fun p =>
      if p = 0 then [mkItem "A" "A", mkItem "B" "B"]
      else if p = 1 then [mkItem "C" "C", mkItem "D" "D"] else [] }

/-- The spec's cursor example for `getutxos`, which requests pages `1` and
`2`: transactions `[A,B],[C,D]` on pages `1` and `2`. -/
def provABCDu : Provider :=
  { pageCount := 2,
    items := fun p =>
      if p = 1 then [mkUtxoItem "A" "A" "dest" 0, mkUtxoItem "B" "B" "dest" 0]
      else if p = 2 then [mkUtxoItem "C" "C" "dest" 0, mkUtxoItem "D" "D" "dest" 0] else [] }

/-- A single page of 25 items for the truncation example. -/
def prov25 : Provider :=
  { pageCount := 0,
    items := fun p => if p = 0 then List.replicate 25 (mkItem "t" "t") else [] }

/-- A single `getutxos` page (page 1) with 25 utxo-carrying items. -/
def prov25u : Provider :=
  { pageCount := 1,
    items := fun p => if p = 1 then List.replicate 25 (mkUtxoItem "t" "t" "dest" 0) else [] }

/-- The record `_parse_transaction` produces for `mkItem "t" "t"` under
`codec0` on network `"btc"`. -/
def parsedT : TxRecord :=
  { status := "unconfirmed", hash := "t", date := some 0, confirmations := 0,
    block_height := none, block_hash := none, fee := 0, rawtx := "00", size := 100,
    network := "btc", coinbase := false, inputs := [], outputs := [],
    input_total := 0, output_total := 0 }

/-- The UTXO record `getutxos` produces for `mkUtxoItem "t" "t" "dest" 0`. -/
def utxoT : UtxoRecord :=
  { address := "dest", tx_hash := "t", confirmations := 3, output_n := 0, input_n := 0,
    block_height := 7, fee := none, size := 0, value := 10, script := "sc", date := 5 }

/-- A codec decoding any raw string to a coinbase transaction value with one
input. -/
def codecCB : String → String → DecodedTx :=
  fun raw _ =>
    { status := "new", hash := raw, date := none, coinbase := true,
      inputs := [{ index_n := 0, value := 0 }], outputs := [] }

/-- A provider item for the coinbase-accounting example: `outputsAmount = 50`,
`fee = 0`, and an empty `vIn` (a coinbase transaction has no real inputs). -/
def itemCB : TxItem :=
  { txId := "cb", hash := "cb", rawTx := "00", confirmations := 1, timestamp := some 0,
    blockTime := none, blockHeight := none, blockHash := none, fee := 0, size := 100,
    vIn := [], vOut := [], outputsAmount := 50, inputsAmount := 0 }

/-- The record `_parse_transaction` produces for `itemCB` under `codecCB`. -/
def parsedCB : TxRecord :=
  { status := "confirmed", hash := "cb", date := some 0, confirmations := 1,
    block_height := none, block_hash := none, fee := 0, rawtx := "00", size := 100,
    network := "btc", coinbase := true, inputs := [{ index_n := 0, value := 0 }],
    outputs := [], input_total := 50, output_total := 50 }

/-- A transaction row satisfying every CHECK constraint. -/
def goodTxRow : DbTransactionRow :=
  { wallet_id := 1, hash := "h", status := "new", witness_type := "legacy" }

/-- A key row satisfying every CHECK constraint. -/
def goodKeyRow : DbKeyRow :=
  { wallet_id := 1, address := "a", key_type := "bip32", encoding := "base58" }

/-! ### Basic lemmas about the combinators -/

theorem mapOpt_isSome_iff (f : α → Option β) (l : List α) :
    (mapOpt f l).isSome ↔ ∀ x ∈ l, (f x).isSome := by
  induction l with
  | nil => simp [mapOpt]
  | cons x xs ih =>
    cases hx : f x with
    | none => simp [mapOpt, hx]
    | some y => simp [mapOpt, hx, ih]

theorem mapOpt_isSome_of_subset {f : α → Option β} {l m : List α}
    (h : (mapOpt f l).isSome) (hsub : ∀ x ∈ m, x ∈ l) : (mapOpt f m).isSome :=
  (mapOpt_isSome_iff f m).mpr fun x hx => (mapOpt_isSome_iff f l).mp h x (hsub x hx)

theorem mapOpt_eq_some_mem {f : α → Option β} :
    ∀ {l : List α} {ys : List β}, mapOpt f l = some ys → ∀ y ∈ ys, ∃ x ∈ l, f x = some y := by
  intro l
  induction l with
  | nil =>
    intro ys h y hy
    simp [mapOpt] at h
    subst h
    simp at hy
  | cons x xs ih =>
    intro ys h y hy
    cases hx : f x with
    | none => simp [mapOpt, hx] at h
    | some y0 =>
      simp only [mapOpt, hx, Option.map_eq_some'] at h
      obtain ⟨zs, hz, rfl⟩ := h
      rcases List.mem_cons.mp hy with rfl | hy'
      · exact ⟨x, List.mem_cons_self x xs, hx⟩
      · obtain ⟨x', hx', hfx'⟩ := ih hz y hy'
        exact ⟨x', List.mem_cons_of_mem _ hx', hfx'⟩

theorem ofoldl_append_list (f : σ → α → Option σ) :
    ∀ (l₁ : List α) (acc : σ) (l₂ : List α),
      ofoldl f acc (l₁ ++ l₂) = (ofoldl f acc l₁).bind (fun s => ofoldl f s l₂) := by
  intro l₁
  induction l₁ with
  | nil => intro acc l₂; simp [ofoldl]
  | cons x xs ih =>
    intro acc l₂
    simp only [List.cons_append, ofoldl]
    cases hx : f acc x with
    | none => simp
    | some s => simp [ih]

theorem runPages_snd (prov : Provider) (step : List β → TxItem → Option (List β)) :
    ∀ (ps : List Nat) (acc : List β),
      (runPages prov step acc ps).2 = ofoldl step acc (ps.flatMap prov.items) := by
  intro ps
  induction ps with
  | nil => intro acc; simp [runPages, ofoldl]
  | cons p rest ih =>
    intro acc
    simp only [runPages, List.flatMap_cons, ofoldl_append_list]
    cases h : ofoldl step acc (prov.items p) with
    | none => simp
    | some acc2 => simp [ih]

theorem runPages_fst (prov : Provider) (step : List β → TxItem → Option (List β)) :
    ∀ (ps : List Nat) (acc : List β) (r : List β),
      (runPages prov step acc ps).2 = some r → (runPages prov step acc ps).1 = ps := by
  intro ps
  induction ps with
  | nil => intro acc r _; rfl
  | cons p rest ih =>
    intro acc r h
    simp only [runPages] at h ⊢
    cases hp : ofoldl step acc (prov.items p) with
    | none => rw [hp] at h; simp at h
    | some acc2 =>
      rw [hp] at h
      dsimp only at h ⊢
      rw [ih acc2 r h]

theorem afterLast_eq_foldl (key : α → Bool) (l : List α) :
    afterLast key l = List.foldl (fun a x => if key x then [] else a ++ [x]) [] l := rfl

theorem foldl_reset_eq (key : α → Bool) :
    ∀ (l acc : List α),
      List.foldl (fun a x => if key x then [] else a ++ [x]) acc l
        = if l.any key = true then afterLast key l else acc ++ l := by
  intro l
  induction l with
  | nil => intro acc; simp
  | cons x xs ih =>
    intro acc
    have hAfter : afterLast key (x :: xs)
        = if xs.any key = true then afterLast key xs
          else (if key x then [] else [x]) ++ xs := by
      rw [afterLast_eq_foldl key (x :: xs), List.foldl_cons, ih]
      rcases Bool.eq_false_or_eq_true (key x) with hx | hx <;> simp [hx]
    simp only [List.foldl_cons, List.any_cons]
    rw [ih, hAfter]
    rcases Bool.eq_false_or_eq_true (key x) with hx | hx <;>
      rcases Bool.eq_false_or_eq_true (xs.any key) with hxs | hxs <;>
        simp [hx, hxs, List.append_assoc]

theorem afterLast_cons (key : α → Bool) (x : α) (xs : List α) :
    afterLast key (x :: xs)
      = if xs.any key = true then afterLast key xs
        else (if key x then [] else [x]) ++ xs := by
  rw [afterLast_eq_foldl key (x :: xs), List.foldl_cons, foldl_reset_eq]
  rcases Bool.eq_false_or_eq_true (key x) with hx | hx <;> simp [hx]

theorem afterLast_of_not_any {key : α → Bool} {l : List α} (h : l.any key = false) :
    afterLast key l = l := by
  simp only [afterLast]
  rw [foldl_reset_eq]
  simp [h]

theorem mem_afterLast (key : α → Bool) :
    ∀ (l : List α), ∀ x ∈ afterLast key l, x ∈ l := by
  intro l
  induction l with
  | nil => simp [afterLast]
  | cons y ys ih =>
    intro x hx
    rw [afterLast_cons] at hx
    by_cases hys : ys.any key = true
    · simp only [hys, if_true] at hx
      exact List.mem_cons_of_mem _ (ih x hx)
    · simp only [hys, if_false] at hx
      by_cases hy : key y
      · simp only [hy, if_true, List.nil_append] at hx
        exact List.mem_cons_of_mem _ hx
      · simp only [hy, if_false, List.singleton_append] at hx
        rcases List.mem_cons.mp hx with rfl | hx'
        · exact List.mem_cons_self x ys
        · exact List.mem_cons_of_mem _ hx'

/-! ### The collect-and-reset characterisation of the two fetch loops -/

theorem ofoldl_txStep_eq (import_raw : String → String → DecodedTx)
    (network after_txid : String) :
    ∀ (l : List TxItem) (acc : List TxRecord),
      (mapOpt (parse_transaction import_raw network) l).isSome →
      ofoldl (txStep import_raw network after_txid) acc l
        = (mapOpt (parse_transaction import_raw network)
            (afterLast (fun tx => tx.txId == after_txid) l)).map
            (fun ys =>
              (if l.any (fun tx => tx.txId == after_txid) = true then [] else acc) ++ ys) := by
  intro l
  induction l with
  | nil =>
    intro acc _
    simp [ofoldl, mapOpt, afterLast]
  | cons x xs ih =>
    intro acc h
    cases hx : parse_transaction import_raw network x with
    | none =>
      rw [mapOpt_isSome_iff] at h
      have := h x (List.mem_cons_self x xs)
      rw [hx] at this
      simp at this
    | some t =>
      have hxs : (mapOpt (parse_transaction import_raw network) xs).isSome := by
        rw [mapOpt_isSome_iff] at h ⊢
        exact fun y hy => h y (List.mem_cons_of_mem _ hy)
      have hstep : txStep import_raw network after_txid acc x
          = some (if x.txId == after_txid then [] else acc ++ [t]) := by
        simp [txStep, hx]
      have hL : ofoldl (txStep import_raw network after_txid) acc (x :: xs)
          = ofoldl (txStep import_raw network after_txid)
              (if x.txId == after_txid then [] else acc ++ [t]) xs := by
        simp only [ofoldl, hstep]
      rw [hL, ih _ hxs, afterLast_cons]
      simp only [List.any_cons]
      rcases Bool.eq_false_or_eq_true (xs.any (fun tx => tx.txId == after_txid)) with hany | hany
      · simp [hany]
      · have hxs_eq : afterLast (fun tx => tx.txId == after_txid) xs = xs :=
          afterLast_of_not_any hany
        cases hm : mapOpt (parse_transaction import_raw network) xs with
        | none => rw [hm] at hxs; simp at hxs
        | some ys =>
          rcases Bool.eq_false_or_eq_true (x.txId == after_txid) with hcx | hcx <;>
            simp [hany, hcx, hxs_eq, hm, mapOpt, hx, List.append_assoc]

theorem utxoOutStep_shift (address : String) (tx : TxItem) (acc : List UtxoRecord)
    (ou : Nat × VOutItem) :
    utxoOutStep address tx acc ou
      = (utxoOutStep address tx [] ou).map (fun e => acc ++ e) := by
  cases ha : ou.2.address with
  | none => simp [utxoOutStep, ha]
  | some a =>
    rcases Bool.eq_false_or_eq_true (a == address) with hai | hai
    · rcases Bool.eq_false_or_eq_true ou.2.spent with hs | hs
      · simp [utxoOutStep, ha, hai, hs]
      · cases hb : tx.blockHeight <;> cases ht : tx.timestamp <;>
          simp [utxoOutStep, ha, hai, hs, hb, ht]
    · simp [utxoOutStep, ha, hai]

theorem ofoldl_outStep_shift (address : String) (tx : TxItem) :
    ∀ (l : List (Nat × VOutItem)) (acc : List UtxoRecord),
      ofoldl (utxoOutStep address tx) acc l
        = (ofoldl (utxoOutStep address tx) [] l).map (fun b => acc ++ b) := by
  intro l
  induction l with
  | nil => intro acc; simp [ofoldl]
  | cons ou ous ih =>
    intro acc
    simp only [ofoldl]
    rw [utxoOutStep_shift address tx acc ou]
    cases h0 : utxoOutStep address tx [] ou with
    | none => simp
    | some e =>
      simp only [Option.map_some']
      rw [ih (acc ++ e), ih e]
      cases hm : ofoldl (utxoOutStep address tx) [] ous with
      | none => simp
      | some b => simp [List.append_assoc]

theorem utxoTxStep_eq_block (address after_txid : String) (acc : List UtxoRecord)
    (tx : TxItem) :
    utxoTxStep address after_txid acc tx
      = (utxoBlock address tx).map
          (fun b => if tx.hash == after_txid then [] else acc ++ b) := by
  simp only [utxoTxStep, utxoBlock]
  rw [ofoldl_outStep_shift]
  cases h : ofoldl (utxoOutStep address tx) [] tx.vOut <;> simp

theorem ofoldl_utxoTxStep_eq (address after_txid : String) :
    ∀ (l : List TxItem) (acc : List UtxoRecord),
      (mapOpt (utxoBlock address) l).isSome →
      ofoldl (utxoTxStep address after_txid) acc l
        = (mapOpt (utxoBlock address)
            (afterLast (fun tx => tx.hash == after_txid) l)).map
            (fun bs =>
              (if l.any (fun tx => tx.hash == after_txid) = true then [] else acc)
                ++ bs.flatten) := by
  intro l
  induction l with
  | nil =>
    intro acc _
    simp [ofoldl, mapOpt, afterLast]
  | cons x xs ih =>
    intro acc h
    cases hx : utxoBlock address x with
    | none =>
      rw [mapOpt_isSome_iff] at h
      have := h x (List.mem_cons_self x xs)
      rw [hx] at this
      simp at this
    | some b =>
      have hxs : (mapOpt (utxoBlock address) xs).isSome := by
        rw [mapOpt_isSome_iff] at h ⊢
        exact fun y hy => h y (List.mem_cons_of_mem _ hy)
      have hstep : utxoTxStep address after_txid acc x
          = some (if x.hash == after_txid then [] else acc ++ b) := by
        rw [utxoTxStep_eq_block, hx]
        rfl
      have hL : ofoldl (utxoTxStep address after_txid) acc (x :: xs)
          = ofoldl (utxoTxStep address after_txid)
              (if x.hash == after_txid then [] else acc ++ b) xs := by
        simp only [ofoldl, hstep]
      rw [hL, ih _ hxs, afterLast_cons]
      simp only [List.any_cons]
      rcases Bool.eq_false_or_eq_true (xs.any (fun tx => tx.hash == after_txid)) with hany | hany
      · simp [hany]
      · have hxs_eq : afterLast (fun tx => tx.hash == after_txid) xs = xs :=
          afterLast_of_not_any hany
        cases hm : mapOpt (utxoBlock address) xs with
        | none => rw [hm] at hxs; simp at hxs
        | some bs =>
          rcases Bool.eq_false_or_eq_true (x.hash == after_txid) with hcx | hcx <;>
            simp [hany, hcx, hxs_eq, hm, mapOpt, hx, List.append_assoc]

theorem pagesFromAux_eq (P : Nat) :
    ∀ (gas s : Nat), P - s ≤ gas →
      pagesFromAux P s gas = List.range' s (max (P + 1 - s) 1) := by
  intro gas
  induction gas with
  | zero =>
    intro s hs
    have h1 : max (P + 1 - s) 1 = 1 := by omega
    rw [h1]
    simp [pagesFromAux, List.range'_one]
  | succ gas ih =>
    intro s hs
    by_cases hsP : s + 1 > P
    · have h1 : max (P + 1 - s) 1 = 1 := by omega
      rw [h1]
      simp [pagesFromAux, hsP, List.range'_one]
    · have hle : s + 1 ≤ P := by omega
      have h2 : max (P + 1 - s) 1 = P + 1 - s := by omega
      have h3 : P + 1 - s = (P - s) + 1 := by omega
      have h4 : max (P + 1 - (s + 1)) 1 = P - s := by omega
      simp only [pagesFromAux, if_neg hsP]
      rw [ih (s + 1) (by omega), h2, h3, List.range'_succ, h4]

theorem pagesFrom_eq (P s : Nat) :
    pagesFrom P s = List.range' s (max (P + 1 - s) 1) :=
  pagesFromAux_eq P (P - s) s (Nat.le_refl _)

theorem pagesFrom_zero (P : Nat) : pagesFrom P 0 = List.range' 0 (P + 1) := by
  rw [pagesFrom_eq]
  congr 1
  omega

theorem pagesFrom_one (P : Nat) : pagesFrom P 1 = List.range' 1 (max P 1) := by
  rw [pagesFrom_eq]
  simp

theorem gettransactionsRun_snd (import_raw : String → String → DecodedTx)
    (network : String) (prov : Provider) (after_txid : String) :
    (gettransactionsRun import_raw network prov after_txid).2
      = ofoldl (txStep import_raw network after_txid) [] (streamG prov) := by
  simp only [gettransactionsRun, streamG]
  exact runPages_snd prov _ _ _

theorem getutxosRun_snd (prov : Provider) (address after_txid : String) :
    (getutxosRun prov address after_txid).2
      = ofoldl (utxoTxStep address after_txid) [] (streamU prov) := by
  simp only [getutxosRun, streamU]
  exact runPages_snd prov _ _ _

theorem gettransactionsRun_eq_afterLast (import_raw : String → String → DecodedTx)
    (network : String) (prov : Provider) (after_txid : String)
    (h : (mapOpt (parse_transaction import_raw network) (streamG prov)).isSome) :
    (gettransactionsRun import_raw network prov after_txid).2
      = mapOpt (parse_transaction import_raw network)
          (afterLast (fun tx => tx.txId == after_txid) (streamG prov)) := by
  rw [gettransactionsRun_snd, ofoldl_txStep_eq import_raw network after_txid _ _ h]
  cases mapOpt (parse_transaction import_raw network)
      (afterLast (fun tx => tx.txId == after_txid) (streamG prov)) with
  | none => simp
  | some ys =>
    rcases Bool.eq_false_or_eq_true
        ((streamG prov).any (fun tx => tx.txId == after_txid)) with hc | hc <;> simp [hc]

theorem getutxosRun_eq_afterLast (prov : Provider) (address after_txid : String)
    (h : (mapOpt (utxoBlock address) (streamU prov)).isSome) :
    (getutxosRun prov address after_txid).2
      = (mapOpt (utxoBlock address)
          (afterLast (fun tx => tx.hash == after_txid) (streamU prov))).map List.flatten := by
  rw [getutxosRun_snd, ofoldl_utxoTxStep_eq address after_txid _ _ h]
  cases mapOpt (utxoBlock address)
      (afterLast (fun tx => tx.hash == after_txid) (streamU prov)) with
  | none => simp
  | some bs =>
    rcases Bool.eq_false_or_eq_true
        ((streamU prov).any (fun tx => tx.hash == after_txid)) with hc | hc <;> simp [hc]

theorem ofoldl_utxoTxStep_isSome (address after_txid : String) :
    ∀ (l : List TxItem) (acc r : List UtxoRecord),
      ofoldl (utxoTxStep address after_txid) acc l = some r →
      (mapOpt (utxoBlock address) l).isSome := by
  intro l
  induction l with
  | nil => intro acc r _; simp [mapOpt]
  | cons x xs ih =>
    intro acc r h
    simp only [ofoldl] at h
    cases hstep : utxoTxStep address after_txid acc x with
    | none => rw [hstep] at h; simp at h
    | some acc2 =>
      rw [hstep] at h
      dsimp only at h
      have hb : (utxoBlock address x).isSome := by
        rw [utxoTxStep_eq_block] at hstep
        cases hub : utxoBlock address x with
        | none => rw [hub] at hstep; simp at hstep
        | some b => simp
      obtain ⟨bx, hbx⟩ := Option.isSome_iff_exists.mp hb
      have hxs := ih acc2 r h
      rw [mapOpt_isSome_iff] at hxs ⊢
      intro y hy
      rcases List.mem_cons.mp hy with rfl | hy'
      · simp [hbx]
      · exact hxs y hy'

theorem utxoOutStep_mem (address : String) (tx : TxItem) :
    ∀ (l : List (Nat × VOutItem)) (acc b : List UtxoRecord),
      ofoldl (utxoOutStep address tx) acc l = some b →
      ∀ r ∈ b, r ∈ acc ∨
        ∃ ou, ou ∈ l ∧ ou.2.address = some address ∧ ou.2.spent = false ∧
          ∃ bh ts, tx.blockHeight = some bh ∧ tx.timestamp = some ts ∧
            r = { address := address, tx_hash := tx.txId, confirmations := tx.confirmations,
                  output_n := ou.1, input_n := 0, block_height := bh, fee := none, size := 0,
                  value := ou.2.value, script := ou.2.scriptPubKey, date := ts } := by
  intro l
  induction l with
  | nil =>
    intro acc b h r hr
    simp only [ofoldl, Option.some.injEq] at h
    subst h
    exact Or.inl hr
  | cons ou ous ih =>
    intro acc b h r hr
    simp only [ofoldl] at h
    cases hstep : utxoOutStep address tx acc ou with
    | none => rw [hstep] at h; simp at h
    | some acc2 =>
      rw [hstep] at h
      dsimp only at h
      have hacc2 : acc2 = acc ∨
          (ou.2.address = some address ∧ ou.2.spent = false ∧
            ∃ bh ts, tx.blockHeight = some bh ∧ tx.timestamp = some ts ∧
              acc2 = acc ++ [{ address := address, tx_hash := tx.txId,
                               confirmations := tx.confirmations, output_n := ou.1,
                               input_n := 0, block_height := bh, fee := none, size := 0,
                               value := ou.2.value, script := ou.2.scriptPubKey,
                               date := ts }]) := by
        cases ha : ou.2.address with
        | none =>
          left
          rw [utxoOutStep, ha] at hstep
          exact (Option.some.injEq _ _ ▸ hstep).symm
        | some a =>
          rcases Bool.eq_false_or_eq_true (a == address) with hai | hai
          · have haeq : a = address := eq_of_beq hai
            subst haeq
            rcases Bool.eq_false_or_eq_true ou.2.spent with hs | hs
            · left
              rw [utxoOutStep, ha] at hstep
              simp only [hai, if_true, hs] at hstep
              simp at hstep
              exact hstep.symm
            · cases hb : tx.blockHeight with
              | none =>
                rw [utxoOutStep, ha] at hstep
                simp only [hai, if_true, hs, hb] at hstep
                simp at hstep
              | some bh =>
                cases ht : tx.timestamp with
                | none =>
                  rw [utxoOutStep, ha] at hstep
                  simp only [hai, if_true, hs, hb, ht] at hstep
                  simp at hstep
                | some ts =>
                  right
                  refine ⟨rfl, hs, bh, ts, rfl, rfl, ?_⟩
                  rw [utxoOutStep, ha] at hstep
                  simp only [hai, if_true, hs, hb, ht] at hstep
                  simp at hstep
                  exact hstep.symm
          · left
            rw [utxoOutStep, ha] at hstep
            simp only [hai] at hstep
            simp at hstep
            exact hstep.symm
      rcases ih acc2 b h r hr with hr2 | ⟨ou', hou', rest⟩
      · rcases hacc2 with rfl | ⟨haddr, hspent, bh, ts, hbh, hts, heq⟩
        · exact Or.inl hr2
        · subst heq
          rcases List.mem_append.mp hr2 with hr3 | hr3
          · exact Or.inl hr3
          · right
            refine ⟨ou, List.mem_cons_self ou ous, haddr, hspent, bh, ts, hbh, hts, ?_⟩
            simpa using hr3
      · exact Or.inr ⟨ou', List.mem_cons_of_mem _ hou', rest⟩

theorem getutxos_mem (prov : Provider) (address after_txid : String) (max_txs : Nat)
    (res : List UtxoRecord)
    (h : getutxos prov address after_txid max_txs = some res) :
    ∀ r ∈ res, ∃ tx, tx ∈ streamU prov ∧
      ∃ ou, ou ∈ tx.vOut ∧ ou.2.address = some address ∧ ou.2.spent = false ∧
        ∃ bh ts, tx.blockHeight = some bh ∧ tx.timestamp = some ts ∧
          r = { address := address, tx_hash := tx.txId, confirmations := tx.confirmations,
                output_n := ou.1, input_n := 0, block_height := bh, fee := none, size := 0,
                value := ou.2.value, script := ou.2.scriptPubKey, date := ts } := by
  intro r hr
  unfold getutxos at h
  cases hrun : (getutxosRun prov address after_txid).2 with
  | none => rw [hrun] at h; simp at h
  | some full =>
    rw [hrun] at h
    simp only [Option.map_some', Option.some.injEq] at h
    have hr_full : r ∈ full := by
      subst h
      exact List.take_subset _ _ hr
    have hfold : ofoldl (utxoTxStep address after_txid) [] (streamU prov) = some full := by
      rw [← getutxosRun_snd]
      exact hrun
    have hbl : (mapOpt (utxoBlock address) (streamU prov)).isSome :=
      ofoldl_utxoTxStep_isSome address after_txid _ _ _ hfold
    rw [← getutxosRun_snd, getutxosRun_eq_afterLast prov address after_txid hbl] at hfold
    cases hms : mapOpt (utxoBlock address)
        (afterLast (fun tx => tx.hash == after_txid) (streamU prov)) with
    | none => rw [hms] at hfold; simp at hfold
    | some bs =>
      rw [hms] at hfold
      simp only [Option.map_some', Option.some.injEq] at hfold
      obtain ⟨blk, hblk, hrblk⟩ := List.mem_flatten.mp (hfold ▸ hr_full)
      obtain ⟨tx, htx, htxblk⟩ := mapOpt_eq_some_mem hms blk hblk
      have htxstream := mem_afterLast _ _ tx htx
      have hmem := utxoOutStep_mem address tx tx.vOut [] blk htxblk r hrblk
      rcases hmem with habs | ⟨ou, hou, haddr, hspent, bh, ts, hbh, hts, heq⟩
      · simp at habs
      · exact ⟨tx, htxstream, ou, hou, haddr, hspent, bh, ts, hbh, hts, heq⟩

/-! ### Store and balance helpers -/

theorem insertDbTransaction_some_inv (table : List DbTransactionRow) (r : DbTransactionRow)
    (t2 : List DbTransactionRow) (h : insertDbTransaction table r = some t2) :
    dbTransactionChecks r = true ∧ t2 = table ++ [r] := by
  unfold insertDbTransaction at h
  rcases Bool.eq_false_or_eq_true (dbTransactionChecks r) with hc | hc
  · refine ⟨hc, ?_⟩
    simp only [hc, if_true] at h
    simpa using h.symm
  · simp [hc] at h

theorem insertDbKey_some_inv (table : List DbKeyRow) (r : DbKeyRow)
    (t2 : List DbKeyRow) (h : insertDbKey table r = some t2) :
    dbKeyChecks r = true ∧ t2 = table ++ [r] := by
  unfold insertDbKey at h
  rcases Bool.eq_false_or_eq_true (dbKeyChecks r) with hc | hc
  · refine ⟨hc, ?_⟩
    simp only [hc, if_true] at h
    simpa using h.symm
  · simp [hc] at h

theorem insertManyDbTransaction_inv :
    ∀ (writes : List DbTransactionRow) (init table : List DbTransactionRow),
      (∀ x ∈ init, dbTransactionChecks x = true) →
      insertManyDbTransaction init writes = some table →
      ∀ x ∈ table, dbTransactionChecks x = true := by
  intro writes
  induction writes with
  | nil =>
    intro init table hinit h
    simp only [insertManyDbTransaction, Option.some.injEq] at h
    subst h
    exact hinit
  | cons r rs ih =>
    intro init table hinit h
    simp only [insertManyDbTransaction] at h
    cases hins : insertDbTransaction init r with
    | none => rw [hins] at h; simp at h
    | some t2 =>
      rw [hins] at h
      dsimp only at h
      obtain ⟨hr, ht2⟩ := insertDbTransaction_some_inv init r t2 hins
      refine ih t2 table ?_ h
      subst ht2
      intro x hx
      rcases List.mem_append.mp hx with hx | hx
      · exact hinit x hx
      · simp only [List.mem_singleton] at hx
        subst hx
        exact hr

theorem insertManyDbKey_inv :
    ∀ (writes : List DbKeyRow) (init table : List DbKeyRow),
      (∀ x ∈ init, dbKeyChecks x = true) →
      insertManyDbKey init writes = some table →
      ∀ x ∈ table, dbKeyChecks x = true := by
  intro writes
  induction writes with
  | nil =>
    intro init table hinit h
    simp only [insertManyDbKey, Option.some.injEq] at h
    subst h
    exact hinit
  | cons r rs ih =>
    intro init table hinit h
    simp only [insertManyDbKey] at h
    cases hins : insertDbKey init r with
    | none => rw [hins] at h; simp at h
    | some t2 =>
      rw [hins] at h
      dsimp only at h
      obtain ⟨hr, ht2⟩ := insertDbKey_some_inv init r t2 hins
      refine ih t2 table ?_ h
      subst ht2
      intro x hx
      rcases List.mem_append.mp hx with hx | hx
      · exact hinit x hx
      · simp only [List.mem_singleton] at hx
        subst hx
        exact hr

theorem getbalanceRun_general (bal : String → Int) :
    ∀ (l : List String) (b : Int) (tr : List String),
      l.foldl (fun acc address => (acc.1 + bal address, acc.2 ++ [address])) (b, tr)
        = (b + (l.map bal).sum, tr ++ l) := by
  intro l
  induction l with
  | nil => intro b tr; simp
  | cons a as ih =>
    intro b tr
    simp only [List.foldl_cons, List.map_cons, List.sum_cons]
    rw [ih]
    simp [add_assoc, List.append_assoc]

/-! ### Inversion of `_parse_transaction` -/

theorem parse_transaction_fields (import_raw : String → String → DecodedTx)
    (network : String) (tx : TxItem) (t : TxRecord)
    (h : parse_transaction import_raw network tx = some t) :
    t.status = (if tx.confirmations ≠ 0 then "confirmed" else "unconfirmed")
    ∧ t.hash = tx.txId
    ∧ t.confirmations = tx.confirmations
    ∧ t.block_height = tx.blockHeight
    ∧ t.block_hash = (match tx.blockHeight with
                      | some _ => tx.blockHash
                      | none => none)
    ∧ t.fee = tx.fee
    ∧ t.size = tx.size
    ∧ t.rawtx = tx.rawTx
    ∧ t.network = network
    ∧ t.coinbase = (import_raw tx.rawTx network).coinbase
    ∧ t.output_total = tx.outputsAmount
    ∧ t.input_total = (if (import_raw tx.rawTx network).coinbase
        then tx.outputsAmount - tx.fee else tx.inputsAmount)
    ∧ ((import_raw tx.rawTx network).coinbase = true →
        t.inputs = (import_raw tx.rawTx network).inputs)
    ∧ ((import_raw tx.rawTx network).coinbase = false →
        mapOpt (fun i => (List.lookup i.index_n tx.vIn).map (fun a => { i with value := a }))
          (import_raw tx.rawTx network).inputs = some t.inputs) := by
  simp only [parse_transaction] at h
  cases hb : tx.blockHeight with
  | none =>
    rw [hb] at h
    rcases Bool.eq_false_or_eq_true (import_raw tx.rawTx network).coinbase with hcb | hcb
    · rw [hcb] at h
      cases ho : mapOpt (fun o => (List.lookup o.output_n tx.vOut).map
          (fun u => { o with spent := o.spent || u.spent }))
          (import_raw tx.rawTx network).outputs with
      | none => rw [ho] at h; simp at h
      | some outs =>
        rw [ho] at h
        simp only [if_true] at h
        simp only [Option.some.injEq] at h
        subst h
        simp [hb, hcb]
    · rw [hcb] at h
      cases hin : mapOpt (fun i => (List.lookup i.index_n tx.vIn).map
          (fun a => { i with value := a })) (import_raw tx.rawTx network).inputs with
      | none => rw [hin] at h; simp at h
      | some ins =>
        cases ho : mapOpt (fun o => (List.lookup o.output_n tx.vOut).map
            (fun u => { o with spent := o.spent || u.spent }))
            (import_raw tx.rawTx network).outputs with
        | none => rw [hin, ho] at h; simp at h
        | some outs =>
          rw [hin, ho] at h
          simp at h
          subst h
          simp [hb, hcb, hin]
  | some hh =>
    cases hbh : tx.blockHash with
    | none => rw [hb, hbh] at h; simp at h
    | some bhash0 =>
      rw [hb, hbh] at h
      rcases Bool.eq_false_or_eq_true (import_raw tx.rawTx network).coinbase with hcb | hcb
      · rw [hcb] at h
        cases ho : mapOpt (fun o => (List.lookup o.output_n tx.vOut).map
            (fun u => { o with spent := o.spent || u.spent }))
            (import_raw tx.rawTx network).outputs with
        | none => rw [ho] at h; simp at h
        | some outs =>
          rw [ho] at h
          simp only [if_true] at h
          simp only [Option.some.injEq] at h
          subst h
          simp [hb, hbh, hcb]
      · rw [hcb] at h
        cases hin : mapOpt (fun i => (List.lookup i.index_n tx.vIn).map
            (fun a => { i with value := a })) (import_raw tx.rawTx network).inputs with
        | none => rw [hin] at h; simp at h
        | some ins =>
          cases ho : mapOpt (fun o => (List.lookup o.output_n tx.vOut).map
              (fun u => { o with spent := o.spent || u.spent }))
              (import_raw tx.rawTx network).outputs with
          | none => rw [hin, ho] at h; simp at h
          | some outs =>
            rw [hin, ho] at h
            simp at h
            subst h
            simp [hb, hbh, hcb, hin]

/-! ### Claims -/

/-- C1: for every paged provider history and caller-supplied cursor, the two
sync fetches append each encountered item's records in the order received and
reset the collection to empty whenever an item's id equals the cursor, so (up
to the `max_txs` cap) the call returns exactly the records of the items
encountered after the last occurrence of the cursor across all fetched pages;
in particular, on the history `[A,B],[C,D]` with cursor `B`, the returned
records are exactly those of `[C,D]`. -/
theorem gettransactions_getutxos_after_last_cursor
    (import_raw : String → String → DecodedTx) (network : String) (prov provU : Provider)
    (address after_txid : String) (max_txs : Nat)
    (hG : (mapOpt (parse_transaction import_raw network) (streamG prov)).isSome)
    (hU : (mapOpt (utxoBlock address) (streamU provU)).isSome) :
    gettransactions import_raw network prov after_txid max_txs
      = (mapOpt (parse_transaction import_raw network)
          (afterLast (fun tx => tx.txId == after_txid) (streamG prov))).map
          (fun newTxs => newTxs.take max_txs)
    ∧ getutxos provU address after_txid max_txs
      = ((mapOpt (utxoBlock address)
          (afterLast (fun tx => tx.hash == after_txid) (streamU provU))).map
          List.flatten).map (fun newUtxos => newUtxos.take max_txs)
    ∧ (gettransactions codec0 "btc" provABCD "B" 100).map (fun l => l.map (fun r => r.hash))
        = some ["C", "D"]
    ∧ (getutxos provABCDu "dest" "B" 100).map (fun l => l.map (fun r => r.tx_hash))
        = some ["C", "D"] := by
  refine ⟨?_, ?_, by decide, by decide⟩
  · simp only [gettransactions]
    rw [gettransactionsRun_eq_afterLast import_raw network prov after_txid hG]
  · simp only [getutxos]
    rw [getutxosRun_eq_afterLast provU address after_txid hU]

/-- Witness for C1 at the spec's concrete cursor example. -/
theorem gettransactions_getutxos_after_last_cursor_witness :
    ((mapOpt (parse_transaction codec0 "btc") (streamG provABCD)).isSome = true)
    ∧ ((mapOpt (utxoBlock "dest") (streamU provABCDu)).isSome = true)
    ∧ (gettransactions codec0 "btc" provABCD "B" 100
        = (mapOpt (parse_transaction codec0 "btc")
            (afterLast (fun tx => tx.txId == "B") (streamG provABCD))).map
            (fun newTxs => newTxs.take 100)) :=
  ⟨by decide, by decide,
    (gettransactions_getutxos_after_last_cursor codec0 "btc" provABCD provABCDu "dest" "B" 100
      (by decide) (by decide)).1⟩

/-- C2 counterexample: on the two-page history `[A,B],[C,D]` with cursor `B`,
the cursor item sits on page 0, yet the loop requests page 1 afterwards — a
page request is issued after the page on which the cursor item appears, so
reaching previously-seen data does not stop fetching. -/
theorem fetch_stops_at_cursor_counterexample :
    ((provABCD.items 0).any (fun tx => tx.txId == "B") = true)
    ∧ (gettransactionsRun codec0 "btc" provABCD "B").1 = [0, 1] :=
  ⟨by decide, by decide⟩

/-- C2 (amended): whenever a fetch completes, its request trace covers every
page from its start page through the reported total page count — one request
per page, independent of the cursor; reaching the previously-seen item never
cuts paging short (only the page counter exceeding the reported page count
stops the loop). -/
theorem fetch_requests_every_page_regardless_of_cursor
    (import_raw : String → String → DecodedTx) (network : String) (prov provU : Provider)
    (address after_txid after_txidU : String)
    (hG : (gettransactionsRun import_raw network prov after_txid).2.isSome)
    (hU : (getutxosRun provU address after_txidU).2.isSome) :
    (gettransactionsRun import_raw network prov after_txid).1
      = List.range' 0 (prov.pageCount + 1)
    ∧ (getutxosRun provU address after_txidU).1 = List.range' 1 (max provU.pageCount 1) := by
  obtain ⟨resG, hResG⟩ := Option.isSome_iff_exists.mp hG
  obtain ⟨resU, hResU⟩ := Option.isSome_iff_exists.mp hU
  constructor
  · have h1 : (gettransactionsRun import_raw network prov after_txid).1
        = pagesFrom prov.pageCount 0 := by
      simp only [gettransactionsRun] at hResG ⊢
      exact runPages_fst prov _ _ _ _ hResG
    rw [h1, pagesFrom_zero]
  · have h1 : (getutxosRun provU address after_txidU).1 = pagesFrom provU.pageCount 1 := by
      simp only [getutxosRun] at hResU ⊢
      exact runPages_fst provU _ _ _ _ hResU
    rw [h1, pagesFrom_one]

/-- Witness for the amended C2. -/
theorem fetch_requests_every_page_regardless_of_cursor_witness :
    ((gettransactionsRun codec0 "btc" provABCD "B").2.isSome = true)
    ∧ ((getutxosRun provABCDu "dest" "B").2.isSome = true)
    ∧ ((gettransactionsRun codec0 "btc" provABCD "B").1
          = List.range' 0 (provABCD.pageCount + 1)
       ∧ (getutxosRun provABCDu "dest" "B").1 = List.range' 1 (max provABCDu.pageCount 1)) :=
  ⟨by decide, by decide,
    fetch_requests_every_page_regardless_of_cursor codec0 "btc" provABCD provABCDu
      "dest" "B" "B" (by decide) (by decide)⟩

/-- C3 counterexample: the two loops are not mirrored instances visiting the
same items — `gettransactions` starts at page 0 while `getutxos` starts at
page 1, so on the two-page history the visited item streams differ; and the
cursor is keyed on different fields (`txId` vs `hash`), which disagree on an
item whose `txId` and `hash` differ. -/
theorem loops_visit_different_items_counterexample :
    (pagesFrom provABCD.pageCount 0 ≠ pagesFrom provABCD.pageCount 1)
    ∧ streamG provABCD ≠ streamU provABCD
    ∧ ((mkItem "x1" "x2").txId == "x1") = true
    ∧ ((mkItem "x1" "x2").hash == "x1") = false :=
  ⟨by decide, by decide, by decide, by decide⟩

/-- C3 (amended): both fetch loops are instances of the same
collect-append-reset-truncate algorithm — the `afterLast` discard rule over
their item streams — but they are not identical: `gettransactions` fetches
pages `0 .. pageCount` and keys the cursor on the `txId` field, while
`getutxos` fetches pages `1 .. max pageCount 1` and keys it on the `hash`
field. -/
theorem loops_same_rule_different_start_page_and_key
    (import_raw : String → String → DecodedTx) (network : String) (prov : Provider)
    (address after_txid : String) (max_txs : Nat)
    (hG : (mapOpt (parse_transaction import_raw network) (streamG prov)).isSome)
    (hU : (mapOpt (utxoBlock address) (streamU prov)).isSome) :
    streamG prov = (List.range' 0 (prov.pageCount + 1)).flatMap prov.items
    ∧ streamU prov = (List.range' 1 (max prov.pageCount 1)).flatMap prov.items
    ∧ gettransactions import_raw network prov after_txid max_txs
        = (mapOpt (parse_transaction import_raw network)
            (afterLast (fun tx => tx.txId == after_txid) (streamG prov))).map
            (fun newTxs => newTxs.take max_txs)
    ∧ getutxos prov address after_txid max_txs
        = ((mapOpt (utxoBlock address)
            (afterLast (fun tx => tx.hash == after_txid) (streamU prov))).map
            List.flatten).map (fun newUtxos => newUtxos.take max_txs) := by
  refine ⟨?_, ?_, ?_, ?_⟩
  · simp only [streamG, pagesFrom_zero]
  · simp only [streamU, pagesFrom_one]
  · simp only [gettransactions]
    rw [gettransactionsRun_eq_afterLast import_raw network prov after_txid hG]
  · simp only [getutxos]
    rw [getutxosRun_eq_afterLast prov address after_txid hU]

/-- Witness for the amended C3. -/
theorem loops_same_rule_different_start_page_and_key_witness :
    ((mapOpt (parse_transaction codec0 "btc") (streamG provABCDu)).isSome = true)
    ∧ ((mapOpt (utxoBlock "dest") (streamU provABCDu)).isSome = true)
    ∧ streamG provABCDu = (List.range' 0 (provABCDu.pageCount + 1)).flatMap provABCDu.items :=
  ⟨by decide, by decide,
    (loops_same_rule_different_start_page_and_key codec0 "btc" provABCDu "dest" "B" 7
      (by decide) (by decide)).1⟩

/-- C4: a parsed record's status is `unconfirmed` exactly when the provider
item's confirmation count is empty (zero) and `confirmed` otherwise; block
height and block hash are attached to the record only when the item carries a
`blockHeight` key; and the derived status does not depend on the decoded
transaction value, so no prior local status enters the derivation. -/
theorem parse_transaction_status_and_block_fields
    (import_raw : String → String → DecodedTx) (network : String) (tx : TxItem) (t : TxRecord)
    (h : parse_transaction import_raw network tx = some t) :
    t.status = (if tx.confirmations = 0 then "unconfirmed" else "confirmed")
    ∧ t.block_height = tx.blockHeight
    ∧ (tx.blockHeight = none → t.block_hash = none)
    ∧ (∀ hh, tx.blockHeight = some hh → t.block_hash = tx.blockHash)
    ∧ (∀ (import_raw2 : String → String → DecodedTx) (t2 : TxRecord),
        parse_transaction import_raw2 network tx = some t2 → t2.status = t.status) := by
  obtain ⟨hst, -, -, hbh, hbhash, -, -, -, -, -, -, -, -, -⟩ :=
    parse_transaction_fields import_raw network tx t h
  refine ⟨?_, hbh, ?_, ?_, ?_⟩
  · rw [hst]
    by_cases hc : tx.confirmations = 0 <;> simp [hc]
  · intro hnone
    rw [hbhash, hnone]
  · intro hh hsome
    rw [hbhash, hsome]
  · intro import_raw2 t2 h2
    obtain ⟨hst2, -, -, -, -, -, -, -, -, -, -, -, -, -⟩ :=
      parse_transaction_fields import_raw2 network tx t2 h2
    rw [hst2, hst]

/-- Witness for C4. -/
theorem parse_transaction_status_and_block_fields_witness :
    (parse_transaction codec0 "btc" (mkItem "t" "t") = some parsedT)
    ∧ parsedT.status
        = (if (mkItem "t" "t").confirmations = 0 then "unconfirmed" else "confirmed") :=
  ⟨by decide,
    (parse_transaction_status_and_block_fields codec0 "btc" (mkItem "t" "t") parsedT
      (by decide)).1⟩

/-- C5: coinbase accounting — for a coinbase transaction the record's
`input_total` is the provider's output total minus the fee and the decoded
inputs are returned untouched (no per-input `vIn` lookup happens, so parsing
succeeds even with an empty `vIn`); for a non-coinbase transaction
`input_total` is the provider's `inputsAmount` and every input's value is the
provider's per-input `amount` at that input's index. -/
theorem parse_transaction_input_total
    (import_raw : String → String → DecodedTx) (network : String) (tx : TxItem) (t : TxRecord)
    (h : parse_transaction import_raw network tx = some t) :
    ((import_raw tx.rawTx network).coinbase = true →
      t.input_total = tx.outputsAmount - tx.fee
      ∧ t.inputs = (import_raw tx.rawTx network).inputs)
    ∧ ((import_raw tx.rawTx network).coinbase = false →
      t.input_total = tx.inputsAmount
      ∧ mapOpt (fun i => (List.lookup i.index_n tx.vIn).map (fun a => { i with value := a }))
          (import_raw tx.rawTx network).inputs = some t.inputs) := by
  obtain ⟨-, -, -, -, -, -, -, -, -, -, -, hit, hci, hcni⟩ :=
    parse_transaction_fields import_raw network tx t h
  constructor
  · intro hcb
    refine ⟨?_, hci hcb⟩
    rw [hit, hcb]
    simp
  · intro hcb
    refine ⟨?_, hcni hcb⟩
    rw [hit, hcb]
    simp

/-- Witness for C5: `output_total = 50`, `fee = 0` gives `input_total = 50`,
with an empty `vIn`. -/
theorem parse_transaction_input_total_witness :
    (parse_transaction codecCB "btc" itemCB = some parsedCB)
    ∧ ((codecCB itemCB.rawTx "btc").coinbase = true →
        parsedCB.input_total = itemCB.outputsAmount - itemCB.fee
        ∧ parsedCB.inputs = (codecCB itemCB.rawTx "btc").inputs)
    ∧ parsedCB.input_total = 50
    ∧ itemCB.vIn = [] :=
  ⟨by decide,
    (parse_transaction_input_total codecCB "btc" itemCB parsedCB (by decide)).1,
    by decide, by decide⟩

/-- C6: every record returned by `getutxos` carries the queried address and
stems from an output of an encountered item that has an explicit address
field equal to the queried address and is unspent; a spent output, an output
without an address key, or an output of a different address never contributes
a record. -/
theorem getutxos_only_unspent_outputs_of_address
    (prov : Provider) (address after_txid : String) (max_txs : Nat) (res : List UtxoRecord)
    (h : getutxos prov address after_txid max_txs = some res) :
    ∀ r ∈ res, r.address = address ∧
      ∃ tx, tx ∈ streamU prov ∧
        ∃ ou, ou ∈ tx.vOut ∧ ou.2.address = some address ∧ ou.2.spent = false ∧
          r.tx_hash = tx.txId ∧ r.output_n = ou.1 ∧ r.value = ou.2.value := by
  intro r hr
  obtain ⟨tx, htx, ou, hou, haddr, hspent, bh, ts, hbh, hts, heq⟩ :=
    getutxos_mem prov address after_txid max_txs res h r hr
  subst heq
  exact ⟨rfl, tx, htx, ou, hou, haddr, hspent, rfl, rfl, rfl⟩

/-- Witness for C6. -/
theorem getutxos_only_unspent_outputs_of_address_witness :
    (getutxos prov25u "dest" "x" 100 = some (List.replicate 25 utxoT))
    ∧ (∀ r ∈ List.replicate 25 utxoT, r.address = "dest" ∧
        ∃ tx, tx ∈ streamU prov25u ∧
          ∃ ou, ou ∈ tx.vOut ∧ ou.2.address = some "dest" ∧ ou.2.spent = false ∧
            r.tx_hash = tx.txId ∧ r.output_n = ou.1 ∧ r.value = ou.2.value) :=
  ⟨by decide,
    getutxos_only_unspent_outputs_of_address prov25u "dest" "x" 100
      (List.replicate 25 utxoT) (by decide)⟩

/-- C7: every record returned by `getutxos` reports `input_n = 0` and leaves
`fee` unset (`None`) and `size` unset (`0`), whatever transaction-level data
the provider item carries. -/
theorem getutxos_input_n_fee_size_unset
    (prov : Provider) (address after_txid : String) (max_txs : Nat) (res : List UtxoRecord)
    (h : getutxos prov address after_txid max_txs = some res) :
    ∀ r ∈ res, r.input_n = 0 ∧ r.fee = none ∧ r.size = 0 := by
  intro r hr
  obtain ⟨tx, htx, ou, hou, haddr, hspent, bh, ts, hbh, hts, heq⟩ :=
    getutxos_mem prov address after_txid max_txs res h r hr
  subst heq
  exact ⟨rfl, rfl, rfl⟩

/-- Witness for C7. -/
theorem getutxos_input_n_fee_size_unset_witness :
    (getutxos prov25u "dest" "x" 10 = some (List.replicate 10 utxoT))
    ∧ (∀ r ∈ List.replicate 10 utxoT, r.input_n = 0 ∧ r.fee = none ∧ r.size = 0) :=
  ⟨by decide,
    getutxos_input_n_fee_size_unset prov25u "dest" "x" 10 (List.replicate 10 utxoT)
      (by decide)⟩

/-- C8: both calls return the collected sequence truncated to the caller's
cap: the result is exactly the first `max_txs` elements, in order, of the
full collected sequence, hence contains at most `max_txs` records. -/
theorem results_truncated_to_max
    (import_raw : String → String → DecodedTx) (network : String) (prov provU : Provider)
    (address after_txid : String) (max_txs : Nat) :
    (∀ full, (gettransactionsRun import_raw network prov after_txid).2 = some full →
      gettransactions import_raw network prov after_txid max_txs = some (full.take max_txs)
      ∧ (full.take max_txs).length ≤ max_txs)
    ∧ (∀ full, (getutxosRun provU address after_txid).2 = some full →
      getutxos provU address after_txid max_txs = some (full.take max_txs)
      ∧ (full.take max_txs).length ≤ max_txs) := by
  constructor
  · intro full hf
    refine ⟨?_, ?_⟩
    · simp only [gettransactions, hf, Option.map_some']
    · rw [List.length_take]
      exact Nat.min_le_left _ _
  · intro full hf
    refine ⟨?_, ?_⟩
    · simp only [getutxos, hf, Option.map_some']
    · rw [List.length_take]
      exact Nat.min_le_left _ _

/-- Witness for C8: 25 new records with `max_txs = 10` return exactly the
first 10 in order. -/
theorem results_truncated_to_max_witness :
    ((gettransactionsRun codec0 "btc" prov25 "x").2 = some (List.replicate 25 parsedT))
    ∧ ((getutxosRun prov25u "dest" "x").2 = some (List.replicate 25 utxoT))
    ∧ (gettransactions codec0 "btc" prov25 "x" 10
          = some ((List.replicate 25 parsedT).take 10)
       ∧ ((List.replicate 25 parsedT).take 10).length ≤ 10)
    ∧ (getutxos prov25u "dest" "x" 10 = some ((List.replicate 25 utxoT).take 10)
       ∧ ((List.replicate 25 utxoT).take 10).length ≤ 10) :=
  ⟨by decide, by decide,
    (results_truncated_to_max codec0 "btc" prov25 prov25u "dest" "x" 10).1
      (List.replicate 25 parsedT) (by decide),
    (results_truncated_to_max codec0 "btc" prov25 prov25u "dest" "x" 10).2
      (List.replicate 25 utxoT) (by decide)⟩

/-- C9: the store rejects every write whose enumerated-column value lies
outside its declared set — a transaction row with `status = "bogus"` and a
key row with `encoding = "utf16"` are always rejected — and every accepted
write satisfies all CHECK constraints, so every row of a store built up by
writes has its enumerated columns inside their sets. -/
theorem db_enum_check_constraints :
    (∀ (table : List DbTransactionRow) (w : Nat) (hsh wt : String),
      insertDbTransaction table
        { wallet_id := w, hash := hsh, status := "bogus", witness_type := wt } = none)
    ∧ (∀ (table : List DbKeyRow) (w : Nat) (a kt : String),
      insertDbKey table
        { wallet_id := w, address := a, key_type := kt, encoding := "utf16" } = none)
    ∧ (∀ (table : List DbTransactionRow) (r : DbTransactionRow) (t2 : List DbTransactionRow),
      insertDbTransaction table r = some t2 → dbTransactionChecks r = true)
    ∧ (∀ (table : List DbKeyRow) (r : DbKeyRow) (t2 : List DbKeyRow),
      insertDbKey table r = some t2 → dbKeyChecks r = true)
    ∧ (∀ (writes table : List DbTransactionRow),
      insertManyDbTransaction [] writes = some table →
      ∀ x ∈ table, dbTransactionChecks x = true)
    ∧ (∀ (writes table : List DbKeyRow),
      insertManyDbKey [] writes = some table → ∀ x ∈ table, dbKeyChecks x = true) := by
  refine ⟨?_, ?_, ?_, ?_, ?_, ?_⟩
  · intro table w hsh wt
    simp [insertDbTransaction, dbTransactionChecks]
    intro hmem
    exact absurd hmem (by decide)
  · intro table w a kt
    simp [insertDbKey, dbKeyChecks]
    intro hmem
    decide
  · intro table r t2 hins
    exact (insertDbTransaction_some_inv table r t2 hins).1
  · intro table r t2 hins
    exact (insertDbKey_some_inv table r t2 hins).1
  · intro writes table h
    exact insertManyDbTransaction_inv writes [] table (by simp) h
  · intro writes table h
    exact insertManyDbKey_inv writes [] table (by simp) h

/-- Witness for C9. -/
theorem db_enum_check_constraints_witness :
    (insertManyDbTransaction [] [goodTxRow] = some [goodTxRow])
    ∧ (insertManyDbKey [] [goodKeyRow] = some [goodKeyRow])
    ∧ (∀ x ∈ [goodTxRow], dbTransactionChecks x = true)
    ∧ (∀ x ∈ [goodKeyRow], dbKeyChecks x = true)
    ∧ (insertDbTransaction []
        { wallet_id := 0, hash := "h", status := "bogus", witness_type := "legacy" } = none)
    ∧ (insertDbKey []
        { wallet_id := 0, address := "a", key_type := "bip32", encoding := "utf16" } = none) :=
  ⟨by decide, by decide,
    db_enum_check_constraints.2.2.2.2.1 [goodTxRow] [goodTxRow] (by decide),
    db_enum_check_constraints.2.2.2.2.2 [goodKeyRow] [goodKeyRow] (by decide),
    db_enum_check_constraints.1 [] 0 "h" "legacy",
    db_enum_check_constraints.2.1 [] 0 "a" "bip32"⟩

/-- C10: `getbalance` returns the sum, accumulated in list order starting
from 0, of the provider-reported balances of the addresses; it issues exactly
one `address/state` request per address in list order, hence none for the
empty list, for which it returns 0. -/
theorem getbalance_sum_in_order :
    (∀ (bal : String → Int) (addresslist : List String),
      getbalance bal addresslist = (addresslist.map bal).sum
      ∧ (getbalanceRun bal addresslist).2 = addresslist)
    ∧ (∀ bal : String → Int, getbalanceRun bal [] = (0, [])) := by
  constructor
  · intro bal l
    have h := getbalanceRun_general bal l 0 []
    constructor
    · simp only [getbalance, getbalanceRun, h]
      simp
    · simp only [getbalanceRun, h]
      simp
  · intro bal
    rfl
